import Mathlib

/-!
Verification of the relevance-ranking core of the `code-context` repository.

The Go source is shallowly embedded: pure functions become Lean functions,
`float64` arithmetic is idealised as real-number arithmetic (`ℝ`), file-system
and network effects are passed in explicitly as oracles.  Character-level
functions from Go's `strings`/`unicode` packages are modelled on the ASCII
fragment of Unicode (all string constants appearing in the ranking code are
ASCII).
-/

namespace CodeContext

/-- ASCII fragment of Go's `unicode.IsSpace` (the whitespace characters
`strings.Fields` splits on). -/
def goIsSpace (c : Char) : Bool :=
  c == ' ' || c == '\t' || c == '\n' || c == Char.ofNat 11 || c == Char.ofNat 12 || c == '\r'

/-- ASCII characters of the Unicode punctuation category `P`, as classified by
Go's `unicode.IsPunct`.  ASCII symbol characters (`$ + < = > ^ | ~` and the
backquote), digits and letters are not punctuation. -/
def goPunctChars : List Char :=
  ['!', '"', '#', '%', '&', Char.ofNat 39, '(', ')', '*', ',', '-', '.', '/',
   ':', ';', '?', '@', '[', '\\', ']', '_', Char.ofNat 123, Char.ofNat 125]

/-- ASCII fragment of Go's `unicode.IsPunct`. -/
def goIsPunct (c : Char) : Bool := goPunctChars.contains c

/-- ASCII fragment of Go's `unicode.ToLower` on a single character. -/
def goToLowerChar (c : Char) : Char :=
  if 'A' ≤ c ∧ c ≤ 'Z' then Char.ofNat (c.toNat + 32) else c

/-- Models Go's `strings.ToLower` (ASCII fragment). -/
def goToLower (s : String) : String := String.mk (s.toList.map goToLowerChar)

/-- Helper for `goFields`: splits a character list into maximal runs of
non-space characters, accumulating the current word reversed. -/
def goFieldsAux : List Char → List Char → List String
  | [], cur => if cur.isEmpty then [] else [String.mk cur.reverse]
  | c :: cs, cur =>
    if goIsSpace c then
      if cur.isEmpty then goFieldsAux cs [] else String.mk cur.reverse :: goFieldsAux cs []
    else
      goFieldsAux cs (c :: cur)

/-- Models Go's `strings.Fields`: the whitespace-separated tokens of `s`. -/
def goFields (s : String) : List String := goFieldsAux s.toList []

/-- Helper for `goContains`: substring search over character lists. -/
def containsAux (sub : List Char) : List Char → Bool
  | [] => sub.isPrefixOf []
  | c :: t => sub.isPrefixOf (c :: t) || containsAux sub t

/-- Models Go's `strings.Contains s sub`. -/
def goContains (s sub : String) : Bool := containsAux sub.toList s.toList

/-- Models Go's `strings.HasSuffix s sub`. -/
def goHasSuffix (s sub : String) : Bool :=
  sub.toList.reverse.isPrefixOf s.toList.reverse

/-- Models Go's `filepath.Join target p` for the clean, non-empty relative
paths produced by the directory walker. -/
def filepathJoin (a b : String) : String :=
  if a = "" then b else if b = "" then a else a ++ "/" ++ b

/-- Helper for `splitOnChar`, accumulating the current segment reversed. -/
def splitOnCharAux (sep : Char) : List Char → List Char → List String
  | [], cur => [String.mk cur.reverse]
  | c :: cs, cur =>
    if c = sep then String.mk cur.reverse :: splitOnCharAux sep cs []
    else splitOnCharAux sep cs (c :: cur)

/-- Models Go's `strings.Split s sep` for a one-character separator (the only
form the ranking code uses, with `sep = "/"`): splits at every separator,
keeping empty segments. -/
def splitOnChar (sep : Char) (s : String) : List String :=
  splitOnCharAux sep s.toList []

/-- Models Go's `filepath.Base` for the clean relative paths used by the
ranking pipeline (no trailing slashes): the last slash-separated component. -/
def filepathBase (p : String) : String := (splitOnChar (Char.ofNat 47) p).getLastD p

/- ### internal/relevance/relevance.go -/

/-- FileInfo from `internal/relevance/relevance.go`: a path together with its
relevance score (`float64` modelled as `ℝ`). -/
structure FileInfo where
  Path : String
  Score : ℝ

/-- Options from `internal/relevance/relevance.go` configuring the keyword
strategy.  `MaxFilesToCheck` is a Go `int`, modelled as `ℤ`. -/
structure Options where
  Query : String
  TargetPath : String
  CandidateFiles : List String
  MaxFilesToCheck : ℤ

/-- The fixed stop-word set `commonWords` of `relevance.go`. -/
def commonWords : List String :=
  ["the", "and", "for", "this", "that", "are", "with", "what", "from", "how",
   "where", "when", "who", "why", "which"]

/-- Models `isCommonWord` from `relevance.go`. -/
def isCommonWord (w : String) : Bool := commonWords.contains w

/-- The punctuation-stripping `strings.Map` step inside `extractKeywords`. -/
def stripPunct (w : String) : String :=
  String.mk (w.toList.filter (fun c => !goIsPunct c))

/-- One iteration of the `extractKeywords` loop: clean the word, then skip it
when shorter than 3 characters or a common word. -/
def keywordOf (word : String) : Option String :=
  let w := stripPunct word
  if w.length < 3 then none
  else if isCommonWord w then none
  else some w

/-- Models `extractKeywords` from `relevance.go`: lowercase, split into
fields, strip punctuation, drop short and common words, keep order. -/
def extractKeywords (query : String) : List String :=
  (goFields (goToLower query)).filterMap keywordOf

/-- Number of keywords that occur (after lowercasing the line) as substrings
of one line — the inner keyword loop of `scoreFile`. -/
def lineHits (keywords : List String) (line : String) : ℕ :=
  (keywords.filter (fun k => goContains (goToLower line) k)).length

/-- The per-match weight `1.0 / (0.1 + lineNum/100.0)` of `scoreFile`. -/
noncomputable def lineWeight (lineNum : ℕ) : ℝ :=
  1 / (0.1 + (lineNum : ℝ) / 100)

/-- The scanning loop of `scoreFile` from `relevance.go`: `lineNum0` is the
number of lines already consumed; each line adds one weight per contained
keyword, and the loop breaks once `lineNum > 1000` (after scoring that
line). -/
noncomputable def scoreLines (keywords : List String) : List String → ℕ → ℝ
  | [], _ => 0
  | line :: rest, lineNum0 =>
    let lineNum := lineNum0 + 1
    let c := (lineHits keywords line : ℝ) * lineWeight lineNum
    if lineNum > 1000 then c else c + scoreLines keywords rest lineNum

/-- File-system oracle: `stat` is `os.Stat` (file size, `none` on error) and
`lines` is the file's content as a line list (`none` when opening or reading
fails). -/
structure GoFS where
  stat : String → Option ℕ
  lines : String → Option (List String)

/-- Models `scoreFile` from `relevance.go`: open the file (error when the
oracle has no content) and run the scanning loop. -/
noncomputable def scoreFileRes (fs : GoFS) (path : String) (keywords : List String) :
    Except String ℝ :=
  match fs.lines path with
  | none => .error ("open " ++ path)
  | some ls => .ok (scoreLines keywords ls 0)

/-- The value `scoreFile` produces when its error is ignored (it returns 0
alongside any error), as done by the hybrid strategy. -/
noncomputable def scoreFileValue (fs : GoFS) (path : String) (keywords : List String) : ℝ :=
  match scoreFileRes fs path keywords with
  | .error _ => 0
  | .ok s => s

/- ### Sorting -/

/-- The inner loop of `sortFilesByScore` (`relevance.go`): starting from the
element at position `i` (here `x`), scan the remainder, swapping whenever a
strictly larger score is found; returns the element finally at position `i`
together with the remainder as rearranged by the swaps. -/
noncomputable def innerPass (x : FileInfo) : List FileInfo → FileInfo × List FileInfo
  | [] => (x, [])
  | y :: ys =>
    if x.Score < y.Score then
      let p := innerPass y ys
      (p.1, x :: p.2)
    else
      let p := innerPass x ys
      (p.1, y :: p.2)

/-- The outer loop of `sortFilesByScore`, running once per element
(`fuel` equals the list length at the top-level call). -/
noncomputable def sortFilesByScoreAux : ℕ → List FileInfo → List FileInfo
  | 0, _ => []
  | _ + 1, [] => []
  | n + 1, x :: xs =>
    let p := innerPass x xs
    p.1 :: sortFilesByScoreAux n p.2

/-- Models `sortFilesByScore` from `relevance.go`: the hand-written
double-loop swap sort, descending by score. -/
noncomputable def sortFilesByScore (l : List FileInfo) : List FileInfo :=
  sortFilesByScoreAux l.length l

/-- Models Go's `sort.Slice(scoredFiles, less)` with
`less i j = Score i > Score j`, used by the embedding and hybrid strategies:
the standard library guarantees the result is the input permuted into the
comparator's order (descending score); modelled with insertion sort on that
order. -/
noncomputable def sortSlice (l : List FileInfo) : List FileInfo :=
  l.insertionSort (fun a b => b.Score ≤ a.Score)

/-- The truncation step shared by all strategies:
`maxFiles := m; if maxFiles > len(l) { maxFiles = len(l) }; l[:maxFiles]`. -/
def truncateTo (m : ℤ) (l : List FileInfo) : List FileInfo :=
  l.take (min m.toNat l.length)

/-- Default `MaxFilesToCheck` applied when unset or non-positive. -/
def applyMax (m : ℤ) : ℤ := if m ≤ 0 then 20 else m

/- ### IdentifyRelevantFiles (keyword-only strategy, relevance.go) -/

/-- One candidate of the scoring loop of `IdentifyRelevantFiles`: score the
file, skip it (with a warning) when scoring fails, keep it when the score is
positive. -/
noncomputable def kwScoreOf (fs : GoFS) (targetPath : String) (keywords : List String)
    (filePath : String) : Option FileInfo :=
  match scoreFileRes fs (filepathJoin targetPath filePath) keywords with
  | .error _ => none
  | .ok score => if score > 0 then some ⟨filePath, score⟩ else none

/-- The list `scoredFiles` accumulated by `IdentifyRelevantFiles` before
sorting and truncation. -/
noncomputable def kwScored (fs : GoFS) (targetPath : String) (keywords : List String)
    (candidates : List String) : List FileInfo :=
  candidates.filterMap (kwScoreOf fs targetPath keywords)

/-- Models `IdentifyRelevantFiles` from `relevance.go`. -/
noncomputable def IdentifyRelevantFiles (fs : GoFS) (opts : Options) :
    Except String (List FileInfo) :=
  let maxFiles := applyMax opts.MaxFilesToCheck
  let keywords := extractKeywords opts.Query
  if keywords = [] then .error "could not extract meaningful keywords from query"
  else
    .ok (truncateTo maxFiles
      (sortFilesByScore (kwScored fs opts.TargetPath keywords opts.CandidateFiles)))

/- ### internal/relevance/embedding.go (current revision): provider abstraction -/

/-- EmbeddingOptions of the current `embedding.go`: provider identifier,
query, root path, candidates, result cap, model, endpoint and credential. -/
structure EmbeddingOptions where
  Provider : String
  Query : String
  TargetPath : String
  CandidateFiles : List String
  MaxFilesToCheck : ℤ
  Model : String
  Endpoint : String
  APIKey : String

/-- DefaultEmbeddingOptions from the current `embedding.go`. -/
def DefaultEmbeddingOptions : EmbeddingOptions :=
  { Provider := "ollama"
    Query := ""
    TargetPath := ""
    CandidateFiles := []
    MaxFilesToCheck := 20
    Model := "nomic-embed-text"
    Endpoint := "http://localhost:11434/api/embeddings"
    APIKey := "" }

/-- The two adapter variants the factory can build: `OllamaEmbeddingAdapter`
and `GeminiEmbeddingAdapter`, with the fields the factory fills in. -/
inductive EmbeddingAdapter where
  | ollamaAdapter (mdl endpoint : String)
  | geminiAdapter (mdl apiKey : String)
deriving DecidableEq

/-- Models `NewEmbeddingProvider` from the current `embedding.go`: a switch
on the lowercased provider name; "local" is an alias for "ollama", "openai"
and "anthropic" are recognised but unimplemented, anything else is an unknown
provider.  Construction is pure: no network request is involved. -/
def NewEmbeddingProvider (opts : EmbeddingOptions) : Except String EmbeddingAdapter :=
  let p := goToLower opts.Provider
  if p = "ollama" ∨ p = "local" then .ok (.ollamaAdapter opts.Model opts.Endpoint)
  else if p = "gemini" then .ok (.geminiAdapter opts.Model opts.APIKey)
  else if p = "openai" then .error "OpenAI embedding provider not yet implemented"
  else if p = "anthropic" then .error "Anthropic embedding provider not yet implemented"
  else .error ("unknown embedding provider: " ++ opts.Provider)

/- ### Similarity engine (current embedding.go) -/

/-- The dot-product accumulator of `cosineSimilarity`'s loop. -/
noncomputable def dotProduct (a b : List ℝ) : ℝ :=
  ((a.zip b).map (fun p => p.1 * p.2)).sum

/-- The squared-magnitude accumulator of `cosineSimilarity`'s loop. -/
noncomputable def sumSquares (a : List ℝ) : ℝ :=
  (a.map (fun x => x * x)).sum

/-- Models `cosineSimilarity` from the current `embedding.go`: 0 on length
mismatch, 0 when either squared magnitude is 0, else the dot product divided
by the product of the square-rooted magnitudes (with the code's second
zero-check after the square roots). -/
noncomputable def cosineSimilarity (a b : List ℝ) : ℝ :=
  if a.length ≠ b.length then 0
  else
    let dp := dotProduct a b
    let magA := sumSquares a
    let magB := sumSquares b
    if magA = 0 ∨ magB = 0 then 0
    else
      let sA := Real.sqrt magA
      let sB := Real.sqrt magB
      if sA = 0 ∨ sB = 0 then 0
      else dp / (sA * sB)

/- ### File reading and scoring environment -/

/-- Models `readFileContent`'s join of the first `maxLines` lines, each
followed by a newline. -/
def joinLinesN (lines : List String) : String :=
  lines.foldl (fun acc l => acc ++ l ++ "\n") ""

/-- Models `readFileContent` from the current `embedding.go`. -/
def readFileContent (fs : GoFS) (path : String) (maxLines : ℕ) : Except String String :=
  match fs.lines path with
  | none => .error ("open " ++ path)
  | some ls => .ok (joinLinesN (ls.take maxLines))

/-- Environment of one embedding-based ranking run: the file system and the
network behaviour of the constructed adapter's `GenerateEmbedding`, as a map
from the text sent to the returned vector or error. -/
structure EmbeddingEnv where
  fs : GoFS
  gen : String → Except String (List ℝ)

/-- Models the option-defaulting prologue shared by
`IdentifyRelevantFilesWithEmbeddings` and
`IdentifyRelevantFilesWithHybridApproach`: result cap, provider and model
defaults, and the endpoint default for ollama/local providers only. -/
def applyEmbeddingDefaults (o : EmbeddingOptions) : EmbeddingOptions :=
  let o := if o.MaxFilesToCheck ≤ 0
           then { o with MaxFilesToCheck := DefaultEmbeddingOptions.MaxFilesToCheck } else o
  let o := if o.Provider = "" then { o with Provider := DefaultEmbeddingOptions.Provider } else o
  let o := if o.Model = "" then { o with Model := DefaultEmbeddingOptions.Model } else o
  if o.Endpoint = "" ∧ (goToLower o.Provider = "ollama" ∨ goToLower o.Provider = "local")
  then { o with Endpoint := DefaultEmbeddingOptions.Endpoint } else o

/- ### IdentifyRelevantFilesWithEmbeddings (current embedding.go) -/

/-- One candidate of the scoring loop of `IdentifyRelevantFilesWithEmbeddings`:
skip on stat error, skip files over 1 MiB, skip on read error, skip on
embedding error, keep when the cosine similarity is positive. -/
noncomputable def embScoreOf (env : EmbeddingEnv) (targetPath : String)
    (queryEmbedding : List ℝ) (filePath : String) : Option FileInfo :=
  let fullPath := filepathJoin targetPath filePath
  match env.fs.stat fullPath with
  | none => none
  | some size =>
    if size > 1024 * 1024 then none
    else
      match readFileContent env.fs fullPath 500 with
      | .error _ => none
      | .ok content =>
        match env.gen content with
        | .error _ => none
        | .ok fileEmbedding =>
          let score := cosineSimilarity queryEmbedding fileEmbedding
          if score > 0 then some ⟨filePath, score⟩ else none

/-- The `scoredFiles` list of `IdentifyRelevantFilesWithEmbeddings`. -/
noncomputable def embScored (env : EmbeddingEnv) (targetPath : String)
    (queryEmbedding : List ℝ) (candidates : List String) : List FileInfo :=
  candidates.filterMap (embScoreOf env targetPath queryEmbedding)

/-- Models `IdentifyRelevantFilesWithEmbeddings` from the current
`embedding.go`: defaults, provider construction (fatal on failure), query
embedding (fatal on failure), per-file scoring, sort, truncate. -/
noncomputable def IdentifyRelevantFilesWithEmbeddings (env : EmbeddingEnv)
    (opts0 : EmbeddingOptions) : Except String (List FileInfo) :=
  let opts := applyEmbeddingDefaults opts0
  match NewEmbeddingProvider opts with
  | .error e => .error ("error creating embedding provider: " ++ e)
  | .ok _ =>
    match env.gen opts.Query with
    | .error e => .error ("error getting query embedding: " ++ e)
    | .ok queryEmbedding =>
      .ok (truncateTo opts.MaxFilesToCheck
        (sortSlice (embScored env opts.TargetPath queryEmbedding opts.CandidateFiles)))

/- ### Path scorers -/

/-- Models `getPathRelevanceScore(filePath, keywords)` from the current
`embedding.go` (the keyword-driven variant used by the hybrid strategy):
0.5 per keyword contained in the lowercased path, plus another 0.5 when the
keyword is also contained in the lowercased base name; uncapped. -/
noncomputable def getPathRelevanceScore (filePath : String) (keywords : List String) : ℝ :=
  let pathLower := goToLower filePath
  keywords.foldl (fun score keyword =>
    if goContains pathLower keyword then
      let score := score + 0.5
      if goContains (goToLower (filepathBase filePath)) keyword then score + 0.5 else score
    else score) 0

/-- Models `getPathRelevanceScore(path, query)` from the superseded
`internal/relevance/embedding.go` (the query-driven variant): 0.3 when some
path segment and the query contain one another, extension/topic bonuses of
0.2, three 0.1 bonuses for common important-path patterns, capped at 1.0. -/
noncomputable def getPathRelevanceScoreQuery (path query : String) : ℝ :=
  let lowerPath := goToLower path
  let lowerQuery := goToLower query
  let score : ℝ := 0
  let score :=
    if (splitOnChar (Char.ofNat 47) lowerPath).any
        (fun part => goContains lowerQuery part || goContains part lowerQuery)
    then score + 0.3 else score
  let score :=
    if goHasSuffix lowerPath ".go" ∧ (goContains lowerQuery "go" ∨ goContains lowerQuery "golang")
    then score + 0.2
    else if goHasSuffix lowerPath ".java" ∧ (goContains lowerQuery "java" ∨ goContains lowerQuery "spring")
    then score + 0.2
    else if goHasSuffix lowerPath ".py" ∧ (goContains lowerQuery "python" ∨ goContains lowerQuery "django")
    then score + 0.2
    else if goHasSuffix lowerPath ".js" ∧ (goContains lowerQuery "javascript" ∨ goContains lowerQuery "nodejs")
    then score + 0.2
    else if goHasSuffix lowerPath ".ts" ∧ (goContains lowerQuery "typescript" ∨ goContains lowerQuery "angular")
    then score + 0.2
    else if goHasSuffix lowerPath ".cs" ∧ (goContains lowerQuery "c#" ∨ goContains lowerQuery "dotnet" ∨ goContains lowerQuery ".net")
    then score + 0.2
    else if goHasSuffix lowerPath ".php" ∧ (goContains lowerQuery "php" ∨ goContains lowerQuery "laravel")
    then score + 0.2
    else score
  let score :=
    if goContains lowerPath "main." ∨ goContains lowerPath "index." then score + 0.1 else score
  let score :=
    if goContains lowerPath "controller" ∨ goContains lowerPath "service" then score + 0.1 else score
  let score :=
    if goContains lowerPath "api" ∨ goContains lowerPath "handler" then score + 0.1 else score
  if score > 1.0 then 1.0 else score

/- ### IdentifyRelevantFilesWithHybridApproach (current embedding.go) -/

/-- The provider-construction step of the hybrid strategy: a failure is
logged and yields `none` (proceed without embeddings), never an error. -/
def hybridProvider (opts : EmbeddingOptions) : Option EmbeddingAdapter :=
  match NewEmbeddingProvider opts with
  | .error _ => none
  | .ok p => some p

/-- The query-embedding step of the hybrid strategy: only attempted when a
provider was built; a failure is logged and yields `none` (embedding
component 0 for every file). -/
def hybridQueryEmbedding (env : EmbeddingEnv) (opts : EmbeddingOptions) :
    Option (List ℝ) :=
  match hybridProvider opts with
  | none => none
  | some _ =>
    match env.gen opts.Query with
    | .error _ => none
    | .ok qe => some qe

/-- The embedding component of one hybrid candidate: 0 when degraded (no
provider or no query embedding) and 0 when the per-file embedding fails. -/
noncomputable def hybridEmbeddingScore (env : EmbeddingEnv)
    (queryEmbedding : Option (List ℝ)) (content : String) : ℝ :=
  match queryEmbedding with
  | none => 0
  | some qe =>
    match env.gen content with
    | .error _ => 0
    | .ok fe => cosineSimilarity qe fe

/-- The combined score of one hybrid candidate (given the file was readable):
`0.7*embedding + 0.2*(scoreFile/10) + 0.1*pathRelevance` with the
keyword-driven path scorer. -/
noncomputable def hybridCombined (env : EmbeddingEnv) (targetPath : String)
    (keywords : List String) (queryEmbedding : Option (List ℝ))
    (filePath content : String) : ℝ :=
  let fullPath := filepathJoin targetPath filePath
  let embeddingScore := hybridEmbeddingScore env queryEmbedding content
  let keywordScore := scoreFileValue env.fs fullPath keywords / 10
  let pathRelevance := getPathRelevanceScore filePath keywords
  embeddingScore * 0.7 + keywordScore * 0.2 + pathRelevance * 0.1

/-- One candidate of the hybrid scoring loop: skip on stat error, skip files
over 2 MiB, skip on read error; otherwise keep the candidate exactly when its
combined score is positive. -/
noncomputable def hybridScoreOf (env : EmbeddingEnv) (targetPath : String)
    (keywords : List String) (queryEmbedding : Option (List ℝ))
    (filePath : String) : Option FileInfo :=
  let fullPath := filepathJoin targetPath filePath
  match env.fs.stat fullPath with
  | none => none
  | some size =>
    if size > 1024 * 1024 * 2 then none
    else
      match readFileContent env.fs fullPath 800 with
      | .error _ => none
      | .ok content =>
        let combinedScore := hybridCombined env targetPath keywords queryEmbedding filePath content
        if combinedScore > 0 then some ⟨filePath, combinedScore⟩ else none

/-- The `scoredFiles` list of the hybrid strategy before sorting and
truncation. -/
noncomputable def hybridScored (env : EmbeddingEnv) (opts : EmbeddingOptions) :
    List FileInfo :=
  opts.CandidateFiles.filterMap
    (hybridScoreOf env opts.TargetPath (extractKeywords opts.Query)
      (hybridQueryEmbedding env opts))

/-- Models `IdentifyRelevantFilesWithHybridApproach` from the current
`embedding.go`: defaults, optional provider, optional query embedding,
per-candidate combined scoring, sort, truncate.  Every branch returns `.ok`:
the Go function's error result is always nil. -/
noncomputable def IdentifyRelevantFilesWithHybridApproach (env : EmbeddingEnv)
    (opts0 : EmbeddingOptions) : Except String (List FileInfo) :=
  let opts := applyEmbeddingDefaults opts0
  .ok (truncateTo opts.MaxFilesToCheck (sortSlice (hybridScored env opts)))

/- ### GeminiEmbeddingAdapter.GenerateEmbedding retry loop (current embedding.go) -/

/-- Outcome of one attempt of the Gemini retry loop: client construction
error, EmbedContent error, a nil embedding in a non-error response, or a
successful vector. -/
inductive GeminiOutcome where
  | clientErr (msg : String)
  | embedErr (msg : String)
  | nilResult
  | okVec (v : List ℝ)

/-- The rate-limit test applied to a client-construction error:
`strings.Contains(err, "429") || strings.Contains(err, "rate")`. -/
def isRateLimitClientMsg (msg : String) : Bool :=
  goContains msg "429" || goContains msg "rate"

/-- The rate-limit test applied to an EmbedContent error: additionally
recognises "Resource has been exhausted". -/
def isRateLimitEmbedMsg (msg : String) : Bool :=
  goContains msg "429" || goContains msg "rate" || goContains msg "Resource has been exhausted"

/-- Whether the loop retries after this outcome rather than returning. -/
def geminiRetriable : GeminiOutcome → Bool
  | .clientErr m => isRateLimitClientMsg m
  | .embedErr m => isRateLimitEmbedMsg m
  | .nilResult => true
  | .okVec _ => false

/-- The `lastErr` recorded by an outcome the loop retries past. -/
def geminiLastErr : GeminiOutcome → String
  | .clientErr m => "gemini: error creating client for embedding: " ++ m
  | .embedErr m => m
  | .nilResult => "gemini: received nil embedding"
  | .okVec _ => ""

/-- The jitter factor `0.8 + 0.4*(pid%100)/100` of the backoff computation. -/
def backoffFactor (pid : ℕ) : ℚ :=
  0.8 + 0.4 * ((pid % 100 : ℕ) : ℚ) / 100

/-- The backoff delay in milliseconds slept before attempt number `attempt`
(0-based; only attempts ≥ 1 sleep): `1000 * 2^(attempt-1)` scaled by the
jitter factor, modelling `time.Duration(jitter) * time.Millisecond` before
integer truncation. -/
def geminiDelay (pid : ℕ) (attempt : ℕ) : ℚ :=
  (1000 * 2 ^ (attempt - 1) : ℚ) * backoffFactor pid

/-- Result of a `GenerateEmbedding` call on the Gemini adapter: the returned
value or error, the number of attempts made, and the backoff delays slept (in
milliseconds, in order). -/
structure GeminiResult where
  result : Except String (List ℝ)
  attempts : ℕ
  delays : List ℚ

/-- The retry loop of `GeminiEmbeddingAdapter.GenerateEmbedding`: `fuel` is
the number of loop iterations left (`maxRetries - attempt`), `attempt` the
0-based attempt number, `lastErr` the last recorded error.  Each iteration
with `attempt > 0` first sleeps the backoff delay; a retriable outcome
records `lastErr` and continues; a non-retriable error returns immediately;
running out of fuel returns the exhausted-retries error wrapping `lastErr`. -/
def geminiLoop (pid : ℕ) (oracle : ℕ → GeminiOutcome) :
    ℕ → ℕ → String → GeminiResult
  | 0, attempt, lastErr =>
    ⟨.error ("gemini: exhausted retries (5 attempts): " ++ lastErr), attempt, []⟩
  | fuel + 1, attempt, _ =>
    let ds : List ℚ := if attempt > 0 then [geminiDelay pid attempt] else []
    match oracle attempt with
    | .clientErr m =>
      let wrapped := "gemini: error creating client for embedding: " ++ m
      if isRateLimitClientMsg m then
        let r := geminiLoop pid oracle fuel (attempt + 1) wrapped
        ⟨r.result, r.attempts, ds ++ r.delays⟩
      else ⟨.error wrapped, attempt + 1, ds⟩
    | .embedErr m =>
      if isRateLimitEmbedMsg m then
        let r := geminiLoop pid oracle fuel (attempt + 1) m
        ⟨r.result, r.attempts, ds ++ r.delays⟩
      else ⟨.error ("gemini: error getting embedding: " ++ m), attempt + 1, ds⟩
    | .nilResult =>
      let r := geminiLoop pid oracle fuel (attempt + 1) "gemini: received nil embedding"
      ⟨r.result, r.attempts, ds ++ r.delays⟩
    | .okVec v => ⟨.ok v, attempt + 1, ds⟩

/-- Models `GeminiEmbeddingAdapter.GenerateEmbedding`: an empty API key fails
before any attempt; otherwise the retry loop runs with `maxRetries = 5`.
`oracle n` is the outcome of attempt `n` against the network, `pid` the
process id feeding the jitter. -/
def GenerateEmbeddingGemini (apiKey : String) (pid : ℕ)
    (oracle : ℕ → GeminiOutcome) : GeminiResult :=
  if apiKey = "" then ⟨.error "gemini: API key is required", 0, []⟩
  else geminiLoop pid oracle 5 0 ""

/- ### Spec-side definitions and concrete fixtures -/

/-- Spec-side notion used by the keyword claim: an ASCII lowercase
alphanumeric character. -/
def isLowerAlnumChar (c : Char) : Bool :=
  ('a' ≤ c && c ≤ 'z') || ('0' ≤ c && c ≤ '9')

/-- Spec-side notion: a token consisting only of lowercase alphanumeric
characters. -/
def isLowerAlnumToken (w : String) : Bool := w.toList.all isLowerAlnumChar

/-- The retention test of `extractKeywords` on a punctuation-stripped token:
length at least 3 and not a stop word. -/
def keywordFilter (w : String) : Bool := decide (3 ≤ w.length) && !isCommonWord w

/-- A list of scored files in descending score order (every later entry's
score is at most every earlier entry's). -/
def DescendingByScore (l : List FileInfo) : Prop :=
  l.Pairwise (fun a b => b.Score ≤ a.Score)

/-- The `lastErr` value held by the Gemini retry loop when attempt `k` starts,
assuming attempts `0..k-1` were all retriable. -/
def geminiLastErrAt (oracle : ℕ → GeminiOutcome) : ℕ → String
  | 0 => ""
  | k + 1 => geminiLastErr (oracle k)

/-- Concrete 1001-line file: 1000 lines without the keyword followed by one
line containing it. -/
def cexLines : List String := List.replicate 1000 "zz" ++ ["needle"]

/-- Concrete file system holding one single-line file `root/walker.go`. -/
def fsC3 : GoFS :=
  ⟨fun p => if p = "root/walker.go" then some 10 else none,
   fun p => if p = "root/walker.go" then some ["zzz"] else none⟩

/-- Concrete environment whose embedding backend always fails. -/
def envC3 : EmbeddingEnv := ⟨fsC3, fun _ => .error "backend down"⟩

/-- Concrete hybrid options requesting the unimplemented "openai" provider,
so that embedding-client construction fails. -/
def optsC3 : EmbeddingOptions :=
  { Provider := "openai", Query := "walker", TargetPath := "root",
    CandidateFiles := ["walker.go"], MaxFilesToCheck := 20,
    Model := "m", Endpoint := "e", APIKey := "" }

/-- Concrete empty file system. -/
def fsW : GoFS := ⟨fun _ => none, fun _ => none⟩

/-- Concrete environment over the empty file system with a failing backend. -/
def envW : EmbeddingEnv := ⟨fsW, fun _ => .error "down"⟩

/-- Concrete environment over the empty file system whose backend returns the
one-dimensional vector `[1]` for every text. -/
noncomputable def envOK : EmbeddingEnv := ⟨fsW, fun _ => .ok [1]⟩

/-- Concrete keyword-only options with no candidates. -/
def optsKW : Options :=
  { Query := "walker", TargetPath := "root", CandidateFiles := [], MaxFilesToCheck := 0 }

/-- Concrete keyword-only options whose query is entirely stop words. -/
def optsKWerr : Options :=
  { Query := "the and", TargetPath := "root", CandidateFiles := ["a.go"], MaxFilesToCheck := 3 }

/-- Concrete embedding options with no candidates and an ollama provider. -/
def optsEW : EmbeddingOptions :=
  { Provider := "ollama", Query := "walker", TargetPath := "root",
    CandidateFiles := [], MaxFilesToCheck := 5, Model := "m", Endpoint := "e", APIKey := "k" }

/-- Oracle whose every attempt hits a rate limit. -/
def oracle429 : ℕ → GeminiOutcome := fun _ => .embedErr "429"

/-- Oracle that hits a rate limit once and then succeeds with the empty
vector. -/
def oracleRetryOnce : ℕ → GeminiOutcome :=
  fun n => if n = 0 then .embedErr "429" else .okVec []

instance : IsTrans FileInfo (fun a b => b.Score ≤ a.Score) :=
  ⟨fun _ _ _ h₁ h₂ => le_trans h₂ h₁⟩

instance : IsTotal FileInfo (fun a b => b.Score ≤ a.Score) :=
  ⟨fun a b => le_total b.Score a.Score⟩

/- ### Theorems -/

theorem sumSquares_nonneg (v : List ℝ) : 0 ≤ sumSquares v := by
  refine List.sum_nonneg ?_
  intro x hx
  obtain ⟨y, _, rfl⟩ := List.mem_map.mp hx
  exact mul_self_nonneg y

theorem dotProduct_self (v : List ℝ) : dotProduct v v = sumSquares v := by
  induction v with
  | nil => simp [dotProduct, sumSquares]
  | cons x xs ih => simp [dotProduct, sumSquares] at ih ⊢; rw [ih]

/-- C2: with equal lengths and non-zero squared magnitudes,
`cosineSimilarity` is the dot product over the product of the Euclidean
norms; a non-zero vector has similarity 1 with itself, `[1,0]` and `[2,0]`
yield 1, and length mismatch or a zero magnitude yields 0. -/
theorem cosineSimilarity_claim :
    (∀ a b : List ℝ, a.length = b.length → sumSquares a ≠ 0 → sumSquares b ≠ 0 →
      cosineSimilarity a b
        = dotProduct a b / (Real.sqrt (sumSquares a) * Real.sqrt (sumSquares b)))
    ∧ (∀ v : List ℝ, sumSquares v ≠ 0 → cosineSimilarity v v = 1)
    ∧ cosineSimilarity [1, 0] [2, 0] = 1
    ∧ (∀ a b : List ℝ, a.length ≠ b.length → cosineSimilarity a b = 0)
    ∧ (∀ a b : List ℝ, sumSquares a = 0 ∨ sumSquares b = 0 → cosineSimilarity a b = 0) := by
  have key : ∀ a b : List ℝ, a.length = b.length → sumSquares a ≠ 0 → sumSquares b ≠ 0 →
      cosineSimilarity a b
        = dotProduct a b / (Real.sqrt (sumSquares a) * Real.sqrt (sumSquares b)) := by
    intro a b hlen ha hb
    have ha' : 0 < sumSquares a := lt_of_le_of_ne (sumSquares_nonneg a) (Ne.symm ha)
    have hb' : 0 < sumSquares b := lt_of_le_of_ne (sumSquares_nonneg b) (Ne.symm hb)
    have hsa : Real.sqrt (sumSquares a) ≠ 0 := ne_of_gt (Real.sqrt_pos.mpr ha')
    have hsb : Real.sqrt (sumSquares b) ≠ 0 := ne_of_gt (Real.sqrt_pos.mpr hb')
    simp only [cosineSimilarity]
    rw [if_neg (by simp [hlen]), if_neg (by simp [ha, hb]), if_neg (by simp [hsa, hsb])]
  refine ⟨key, ?_, ?_, ?_, ?_⟩
  · intro v hv
    have hv' : 0 < sumSquares v := lt_of_le_of_ne (sumSquares_nonneg v) (Ne.symm hv)
    rw [key v v rfl hv hv, dotProduct_self,
      Real.mul_self_sqrt (le_of_lt hv'), div_self hv]
  · have h1 : sumSquares [(1 : ℝ), 0] = 1 := by norm_num [sumSquares]
    have h2 : sumSquares [(2 : ℝ), 0] = 4 := by norm_num [sumSquares]
    have hd : dotProduct [(1 : ℝ), 0] [2, 0] = 2 := by norm_num [dotProduct]
    rw [key [1, 0] [2, 0] rfl (by rw [h1]; norm_num) (by rw [h2]; norm_num), h1, h2, hd]
    rw [Real.sqrt_one, show (4 : ℝ) = 2 ^ 2 by norm_num, Real.sqrt_sq (by norm_num : (0:ℝ) ≤ 2)]
    norm_num
  · intro a b hlen
    simp only [cosineSimilarity]
    rw [if_pos hlen]
  · intro a b h
    simp only [cosineSimilarity]
    by_cases hlen : a.length ≠ b.length
    · rw [if_pos hlen]
    · rw [if_neg hlen, if_pos h]

theorem cosineSimilarity_claim_witness :
    cosineSimilarity [3, 4] [3, 4] = 1 :=
  cosineSimilarity_claim.2.1 [3, 4] (by norm_num [sumSquares])

/-- C9: a provider identifier outside {ollama, local, gemini} (lowercased)
yields a construction-time error and no adapter — construction is pure, so no
network call is involved — and a successfully built adapter always matches the
requested provider. -/
theorem newEmbeddingProvider_claim :
    ∀ opts : EmbeddingOptions,
      (goToLower opts.Provider ∉ (["ollama", "local", "gemini"] : List String) →
        ∃ e, NewEmbeddingProvider opts = .error e)
      ∧ (∀ a, NewEmbeddingProvider opts = .ok a →
          ((goToLower opts.Provider = "ollama" ∨ goToLower opts.Provider = "local")
             ∧ a = .ollamaAdapter opts.Model opts.Endpoint)
          ∨ (goToLower opts.Provider = "gemini" ∧ a = .geminiAdapter opts.Model opts.APIKey)) := by
  intro opts
  constructor
  · intro h
    simp only [List.mem_cons, List.not_mem_nil, or_false, not_or] at h
    obtain ⟨h1, h2, h3⟩ := h
    simp only [NewEmbeddingProvider]
    rw [if_neg (by simp [h1, h2]), if_neg h3]
    split
    · exact ⟨_, rfl⟩
    · split
      · exact ⟨_, rfl⟩
      · exact ⟨_, rfl⟩
  · intro a ha
    simp only [NewEmbeddingProvider] at ha
    by_cases h1 : goToLower opts.Provider = "ollama" ∨ goToLower opts.Provider = "local"
    · rw [if_pos h1] at ha
      exact Or.inl ⟨h1, (Except.ok.inj ha).symm⟩
    · rw [if_neg h1] at ha
      by_cases h2 : goToLower opts.Provider = "gemini"
      · rw [if_pos h2] at ha
        exact Or.inr ⟨h2, (Except.ok.inj ha).symm⟩
      · rw [if_neg h2] at ha
        by_cases h3 : goToLower opts.Provider = "openai"
        · rw [if_pos h3] at ha; exact absurd ha (by simp)
        · rw [if_neg h3] at ha
          by_cases h4 : goToLower opts.Provider = "anthropic"
          · rw [if_pos h4] at ha; exact absurd ha (by simp)
          · rw [if_neg h4] at ha; exact absurd ha (by simp)

theorem newEmbeddingProvider_claim_witness :
    ∃ e, NewEmbeddingProvider
        { Provider := "bogus", Query := "", TargetPath := "", CandidateFiles := [],
          MaxFilesToCheck := 0, Model := "", Endpoint := "", APIKey := "" } = .error e :=
  (newEmbeddingProvider_claim _).1 (by decide)

theorem keywordOf_eq (w : String) :
    keywordOf w = if keywordFilter (stripPunct w) then some (stripPunct w) else none := by
  simp only [keywordOf, keywordFilter]
  by_cases h : (stripPunct w).length < 3
  · rw [if_pos h, if_neg (by simp [Bool.and_eq_true]; omega)]
  · rw [if_neg h]
    by_cases hc : isCommonWord (stripPunct w)
    · rw [if_pos hc, if_neg (by simp [hc])]
    · rw [if_neg hc, if_pos (by simp [hc]; omega)]

/-- C5 (amended): `extractKeywords` returns, in order and without
deduplication, exactly the punctuation-stripped whitespace tokens of the
lowercased query whose stripped form has length at least 3 and is not a stop
word (with no requirement that the kept tokens be alphanumeric), and the
result is non-empty exactly when such a token exists. -/
theorem extractKeywords_claim :
    ∀ query : String,
      extractKeywords query
        = ((goFields (goToLower query)).map stripPunct).filter keywordFilter
      ∧ (extractKeywords query ≠ [] ↔
          ∃ w ∈ (goFields (goToLower query)).map stripPunct, keywordFilter w = true) := by
  intro query
  have main : ∀ l : List String,
      l.filterMap keywordOf = (l.map stripPunct).filter keywordFilter := by
    intro l
    induction l with
    | nil => rfl
    | cons a l ih =>
      simp only [List.filterMap_cons, List.map_cons, List.filter_cons, keywordOf_eq a]
      by_cases h : keywordFilter (stripPunct a)
      · rw [if_pos h, if_pos (by simp [h])]
        simp [ih]
      · rw [if_neg h, if_neg (by simp [h]), ih]
  refine ⟨main _, ?_⟩
  rw [extractKeywords, main]
  constructor
  · intro h
    rcases List.exists_mem_of_ne_nil _ h with ⟨w, hw⟩
    exact ⟨w, List.mem_of_mem_filter hw, List.of_mem_filter hw⟩
  · rintro ⟨w, hw, hf⟩
    exact List.ne_nil_of_mem (List.mem_filter.mpr ⟨hw, hf⟩)

theorem extractKeywords_claim_witness :
    extractKeywords "what is the Walker, and how?"
      = ((goFields (goToLower "what is the Walker, and how?")).map stripPunct).filter
          keywordFilter
    ∧ extractKeywords "what is the Walker, and how?" = ["walker"] :=
  ⟨(extractKeywords_claim "what is the Walker, and how?").1, by decide⟩

/-- C5 counterexample: `"+++"` consists of ASCII symbol characters, which are
not Unicode punctuation, so `extractKeywords` keeps the token `"+++"` even
though it is not a lowercase alphanumeric string — the claimed alphanumeric
restriction on returned tokens does not hold. -/
theorem extractKeywords_counterexample :
    extractKeywords "+++" = ["+++"] ∧ isLowerAlnumToken "+++" = false := by decide


theorem scoreLines_eq_sum (keywords : List String) :
    ∀ (lines : List String) (n : ℕ), n ≤ 1000 →
      scoreLines keywords lines n
        = ∑ i ∈ Finset.range (min (1001 - n) lines.length),
            (lineHits keywords (lines.getD i "") : ℝ) * lineWeight (n + i + 1) := by
  intro lines
  induction lines with
  | nil => intro n _; simp [scoreLines]
  | cons line rest ih =>
    intro n hn
    by_cases h : n = 1000
    · subst h
      have hmin : min (1001 - 1000) (line :: rest).length = 1 := by
        simp only [List.length_cons]
        omega
      rw [hmin]
      simp [scoreLines, Finset.sum_range_one]
    · have hlt : n < 1000 := lt_of_le_of_ne hn h
      have hn' : n + 1 ≤ 1000 := by omega
      have hnotb : ¬ (n + 1 > 1000) := by omega
      have hmin : min (1001 - n) (line :: rest).length
          = min (1001 - (n + 1)) rest.length + 1 := by
        simp only [List.length_cons]
        omega
      rw [hmin]
      simp only [scoreLines, if_neg hnotb]
      rw [ih (n + 1) hn', Finset.sum_range_succ']
      simp only [List.getD_cons_succ, List.getD_cons_zero, Nat.add_zero]
      have harith : ∀ i : ℕ, n + (i + 1) + 1 = n + 1 + i + 1 := fun i => by omega
      simp only [harith]
      exact add_comm _ _

/-- C4 (amended): `scoreFile`'s scanning loop scores exactly the first 1001
lines (the break fires only after line 1001 has been scored), summing one
weight `1/(0.1 + lineNumber/100)` per keyword contained in each scored line;
a file with no keyword occurrence scores 0 and is no error, and a match on
line 1 outweighs the same match on line 1000. -/
theorem scoreFile_amended :
    ∀ (keywords : List String) (lines : List String),
      scoreLines keywords lines 0
        = ∑ i ∈ Finset.range (min 1001 lines.length),
            (lineHits keywords (lines.getD i "") : ℝ) * lineWeight (i + 1)
      ∧ ((∀ line ∈ lines, lineHits keywords line = 0) → scoreLines keywords lines 0 = 0)
      ∧ (∀ (fs : GoFS) (path : String), fs.lines path = some lines →
          scoreFileRes fs path keywords = .ok (scoreLines keywords lines 0))
      ∧ lineWeight 1000 < lineWeight 1 := by
  intro keywords lines
  have hsum := scoreLines_eq_sum keywords lines 0 (by omega)
  simp only [Nat.sub_zero, zero_add] at hsum
  refine ⟨hsum, ?_, ?_, ?_⟩
  · intro hzero
    rw [hsum]
    refine Finset.sum_eq_zero ?_
    intro i hi
    have hi' : i < lines.length := by
      have := Finset.mem_range.mp hi
      omega
    have hmem : lines.getD i "" ∈ lines := by
      rw [List.getD_eq_getElem lines "" hi']
      exact List.getElem_mem hi'
    rw [hzero _ hmem]
    norm_num
  · intro fs path hfs
    simp [scoreFileRes, hfs]
  · simp only [lineWeight]
    rw [div_lt_div_iff₀ (by norm_num) (by norm_num)]
    norm_num

theorem scoreLines_skip_nohit (keywords : List String) (line : String)
    (rest : List String) (n : ℕ) (hhit : lineHits keywords line = 0)
    (hn : n + 1 ≤ 1000) :
    scoreLines keywords (line :: rest) n = scoreLines keywords rest (n + 1) := by
  simp only [scoreLines, if_neg (by omega : ¬ (n + 1 > 1000)), hhit]
  norm_num

theorem scoreLines_replicate_skip (keywords : List String) (filler : String)
    (hhit : lineHits keywords filler = 0) :
    ∀ (m n : ℕ) (tail : List String), n + m ≤ 1000 →
      scoreLines keywords (List.replicate m filler ++ tail) n
        = scoreLines keywords tail (n + m) := by
  intro m
  induction m with
  | zero => intro n tail _; simp
  | succ m ih =>
    intro n tail hnm
    rw [List.replicate_succ, List.cons_append,
      scoreLines_skip_nohit keywords filler _ n hhit (by omega),
      ih (n + 1) tail (by omega)]
    congr 1
    omega

theorem scoreFile_amended_witness :
    scoreLines ["needle"] ["a needle", "hay"] 0
      = ∑ i ∈ Finset.range (min 1001 (["a needle", "hay"] : List String).length),
          (lineHits ["needle"] ((["a needle", "hay"] : List String).getD i "") : ℝ)
            * lineWeight (i + 1)
    ∧ lineWeight 1000 < lineWeight 1 :=
  ⟨(scoreFile_amended ["needle"] ["a needle", "hay"]).1,
   (scoreFile_amended ["needle"] ["a needle", "hay"]).2.2.2⟩

set_option maxRecDepth 4000 in
/-- C4 counterexample: with keyword `"needle"` and a 1001-line file whose
only match is on line 1001, the scanning loop scores the file `100/1011 ≠ 0`,
while the first 1000 lines alone score 0 — so line 1001, beyond the claimed
1000-line cap, is scored. -/
theorem scoreFile_counterexample :
    scoreLines ["needle"] (cexLines.take 1000) 0 = 0
    ∧ scoreLines ["needle"] cexLines 0 = 100 / 1011
    ∧ (100 / 1011 : ℝ) ≠ 0 := by
  have hnohit : lineHits ["needle"] "zz" = 0 := by decide
  have htake : cexLines.take 1000 = List.replicate 1000 "zz" := by
    rw [cexLines, List.take_append_of_le_length (by rw [List.length_replicate])]
    rw [List.take_replicate, min_self]
  refine ⟨?_, ?_, by norm_num⟩
  · rw [htake]
    have h := scoreLines_replicate_skip ["needle"] "zz" hnohit 1000 0 [] (by omega)
    rw [List.append_nil] at h
    rw [h]
    rfl
  · rw [cexLines, scoreLines_replicate_skip ["needle"] "zz" hnohit 1000 0 ["needle"] (by omega)]
    have hhit : lineHits ["needle"] "needle" = 1 := by decide
    simp only [scoreLines, zero_add, if_pos (by omega : 1000 + 1 > 1000), hhit]
    rw [lineWeight]
    norm_num

theorem innerPass_snd_length (l : List FileInfo) :
    ∀ x, (innerPass x l).2.length = l.length := by
  induction l with
  | nil => intro x; simp [innerPass]
  | cons y ys ih =>
    intro x
    simp only [innerPass]
    split
    · simp [ih y]
    · simp [ih x]

theorem innerPass_perm (l : List FileInfo) :
    ∀ x, List.Perm ((innerPass x l).1 :: (innerPass x l).2) (x :: l) := by
  induction l with
  | nil => intro x; simp [innerPass]
  | cons y ys ih =>
    intro x
    simp only [innerPass]
    split
    · exact (List.Perm.swap x (innerPass y ys).1 (innerPass y ys).2).trans
        ((ih y).cons x)
    · exact (List.Perm.swap y (innerPass x ys).1 (innerPass x ys).2).trans
        (((ih x).cons y).trans (List.Perm.swap x y ys))

theorem innerPass_fst_max (l : List FileInfo) :
    ∀ x z, z ∈ (innerPass x l).1 :: (innerPass x l).2 →
      z.Score ≤ (innerPass x l).1.Score := by
  induction l with
  | nil =>
    intro x z hz
    simp [innerPass] at hz
    simp [hz, innerPass]
  | cons y ys ih =>
    intro x z hz
    simp only [innerPass] at hz ⊢
    split at hz <;> rename_i hcmp
    · simp only [hcmp, if_true]
      have hy : y.Score ≤ (innerPass y ys).1.Score := by
        refine ih y y ?_
        exact ((innerPass_perm ys y).mem_iff).mpr (List.mem_cons_self y ys)
      rcases List.mem_cons.mp hz with rfl | hz'
      · rfl
      · rcases List.mem_cons.mp hz' with rfl | hz''
        · exact le_trans (le_of_lt hcmp) hy
        · exact ih y z (List.mem_cons_of_mem _ hz'')
    · simp only [hcmp, if_false]
      have hx : x.Score ≤ (innerPass x ys).1.Score := by
        refine ih x x ?_
        exact ((innerPass_perm ys x).mem_iff).mpr (List.mem_cons_self x ys)
      rcases List.mem_cons.mp hz with rfl | hz'
      · rfl
      · rcases List.mem_cons.mp hz' with rfl | hz''
        · exact le_trans (le_of_not_lt hcmp) hx
        · exact ih x z (List.mem_cons_of_mem _ hz'')

theorem sortFilesByScoreAux_perm :
    ∀ (n : ℕ) (l : List FileInfo), l.length = n →
      List.Perm (sortFilesByScoreAux n l) l := by
  intro n
  induction n with
  | zero =>
    intro l hl
    rw [List.length_eq_zero] at hl
    subst hl
    simp [sortFilesByScoreAux]
  | succ n ih =>
    intro l hl
    match l with
    | [] => simp [sortFilesByScoreAux]
    | x :: xs =>
      simp only [sortFilesByScoreAux]
      have hlen : (innerPass x xs).2.length = n := by
        rw [innerPass_snd_length xs x]
        simpa using hl
      exact ((ih _ hlen).cons _).trans (innerPass_perm xs x)

theorem sortFilesByScoreAux_sorted :
    ∀ (n : ℕ) (l : List FileInfo), l.length = n →
      DescendingByScore (sortFilesByScoreAux n l) := by
  intro n
  induction n with
  | zero =>
    intro l _
    simp [sortFilesByScoreAux, DescendingByScore]
  | succ n ih =>
    intro l hl
    match l with
    | [] => simp [sortFilesByScoreAux, DescendingByScore]
    | x :: xs =>
      simp only [sortFilesByScoreAux, DescendingByScore]
      have hlen : (innerPass x xs).2.length = n := by
        rw [innerPass_snd_length xs x]
        simpa using hl
      refine List.Pairwise.cons ?_ (ih _ hlen)
      intro z hz
      have hz' : z ∈ (innerPass x xs).2 :=
        (sortFilesByScoreAux_perm n _ hlen).mem_iff.mp hz
      exact innerPass_fst_max xs x z (List.mem_cons_of_mem _ hz')

theorem sortFilesByScore_perm (l : List FileInfo) :
    List.Perm (sortFilesByScore l) l :=
  sortFilesByScoreAux_perm l.length l rfl

theorem sortFilesByScore_sorted (l : List FileInfo) :
    DescendingByScore (sortFilesByScore l) :=
  sortFilesByScoreAux_sorted l.length l rfl

theorem sortSlice_perm (l : List FileInfo) : List.Perm (sortSlice l) l :=
  List.perm_insertionSort _ l

theorem sortSlice_sorted (l : List FileInfo) : DescendingByScore (sortSlice l) :=
  List.sorted_insertionSort _ l

theorem truncateTo_length (m : ℤ) (l : List FileInfo) :
    (truncateTo m l).length = min m.toNat l.length := by
  simp [truncateTo, List.length_take]

theorem truncateTo_sublist (m : ℤ) (l : List FileInfo) :
    List.Sublist (truncateTo m l) l :=
  List.take_sublist _ l

theorem truncateTo_sorted (m : ℤ) (l : List FileInfo) (h : DescendingByScore l) :
    DescendingByScore (truncateTo m l) :=
  h.sublist (truncateTo_sublist m l)

theorem filterMap_path_sublist (f : String → Option FileInfo)
    (hf : ∀ a fi, f a = some fi → fi.Path = a) :
    ∀ l : List String, List.Sublist ((l.filterMap f).map FileInfo.Path) l := by
  intro l
  induction l with
  | nil => simp
  | cons a l ih =>
    rw [List.filterMap_cons]
    cases hfa : f a with
    | none => exact ih.cons a
    | some fi =>
      rw [List.map_cons, hf a fi hfa]
      exact ih.cons₂ a

theorem filterMap_filter_eq {α β : Type} (f : α → Option β) (q : α → Bool)
    (h : ∀ a, q a = false → f a = none) :
    ∀ l : List α, (l.filter q).filterMap f = l.filterMap f := by
  intro l
  induction l with
  | nil => rfl
  | cons a l ih =>
    rw [List.filter_cons, List.filterMap_cons]
    cases hq : q a with
    | true => rw [if_pos (by simp), List.filterMap_cons, ih]
    | false =>
      rw [if_neg (by simp), ih, h a hq]

theorem applyEmbeddingDefaults_fields (o : EmbeddingOptions) :
    (applyEmbeddingDefaults o).Query = o.Query
    ∧ (applyEmbeddingDefaults o).TargetPath = o.TargetPath
    ∧ (applyEmbeddingDefaults o).CandidateFiles = o.CandidateFiles
    ∧ (applyEmbeddingDefaults o).MaxFilesToCheck = applyMax o.MaxFilesToCheck := by
  simp only [applyEmbeddingDefaults, applyMax, DefaultEmbeddingOptions]
  split_ifs <;> simp_all

theorem kwScoreOf_some (fs : GoFS) (tp : String) (kw : List String)
    (a : String) (fi : FileInfo) (h : kwScoreOf fs tp kw a = some fi) :
    fi.Path = a ∧ 0 < fi.Score ∧ fs.lines (filepathJoin tp a) ≠ none := by
  cases hl : fs.lines (filepathJoin tp a) with
  | none => simp [kwScoreOf, scoreFileRes, hl] at h
  | some ls =>
    simp only [kwScoreOf, scoreFileRes, hl] at h
    split_ifs at h with hsc
    · cases h
      exact ⟨rfl, hsc, by simp [hl]⟩

/-- C7: the keyword-only strategy errors exactly when keyword extraction is
empty (and then returns no partial result); every returned file was readable
and scored positive; and dropping the unreadable candidates from the input
does not change the result (they are skipped, the run continues). -/
theorem identifyRelevantFiles_claim :
    ∀ (fs : GoFS) (opts : Options),
      ((∃ e, IdentifyRelevantFiles fs opts = .error e) ↔ extractKeywords opts.Query = [])
      ∧ (∀ l, IdentifyRelevantFiles fs opts = .ok l → ∀ f ∈ l,
          0 < f.Score ∧ fs.lines (filepathJoin opts.TargetPath f.Path) ≠ none)
      ∧ IdentifyRelevantFiles fs
          { opts with CandidateFiles := List.filter (fun p => (fs.lines (filepathJoin opts.TargetPath p)).isSome) opts.CandidateFiles }
        = IdentifyRelevantFiles fs opts := by
  intro fs opts
  refine ⟨?_, ?_, ?_⟩
  · constructor
    · rintro ⟨e, he⟩
      by_contra hk
      simp only [IdentifyRelevantFiles, if_neg hk] at he
      exact Except.noConfusion he
    · intro hk
      exact ⟨"could not extract meaningful keywords from query",
        by simp only [IdentifyRelevantFiles, if_pos hk]⟩
  · intro l hl f hf
    by_cases hk : extractKeywords opts.Query = []
    · simp only [IdentifyRelevantFiles, if_pos hk] at hl
      exact Except.noConfusion hl
    · simp only [IdentifyRelevantFiles, if_neg hk] at hl
      cases hl
      have hf1 : f ∈ sortFilesByScore
          (kwScored fs opts.TargetPath (extractKeywords opts.Query) opts.CandidateFiles) :=
        (truncateTo_sublist _ _).mem hf
      have hf2 : f ∈ kwScored fs opts.TargetPath (extractKeywords opts.Query)
          opts.CandidateFiles := (sortFilesByScore_perm _).mem_iff.mp hf1
      obtain ⟨a, _, ha⟩ := List.mem_filterMap.mp hf2
      obtain ⟨hpath, hpos, hread⟩ := kwScoreOf_some fs _ _ a f ha
      exact ⟨hpos, hpath ▸ hread⟩
  · simp only [IdentifyRelevantFiles, kwScored]
    rw [filterMap_filter_eq]
    intro a ha
    have hnone : fs.lines (filepathJoin opts.TargetPath a) = none := by
      cases hx : fs.lines (filepathJoin opts.TargetPath a) <;> simp_all
    simp [kwScoreOf, scoreFileRes, hnone]

theorem keywordsEmpty_err : extractKeywords "the and" = [] := by decide

theorem identifyRelevantFiles_claim_witness :
    ∃ e, IdentifyRelevantFiles fsW optsKWerr = .error e :=
  (identifyRelevantFiles_claim fsW optsKWerr).1.mpr keywordsEmpty_err

theorem hybridScoreOf_some (env : EmbeddingEnv) (tp : String) (kw : List String)
    (qe : Option (List ℝ)) (p : String) (fi : FileInfo)
    (h : hybridScoreOf env tp kw qe p = some fi) :
    fi.Path = p ∧ 0 < fi.Score
    ∧ ∃ content, readFileContent env.fs (filepathJoin tp p) 800 = .ok content
        ∧ fi.Score = hybridCombined env tp kw qe p content := by
  cases hstat : env.fs.stat (filepathJoin tp p) with
  | none => simp [hybridScoreOf, hstat] at h
  | some size =>
    simp only [hybridScoreOf, hstat] at h
    split_ifs at h with hsize
    cases hread : readFileContent env.fs (filepathJoin tp p) 800 with
    | error e => rw [hread] at h; simp at h
    | ok content =>
      rw [hread] at h
      simp only [] at h
      split_ifs at h with hpos
      cases h
      exact ⟨rfl, hpos, content, rfl, rfl⟩

theorem hybridScoreOf_mem (env : EmbeddingEnv) (tp : String) (kw : List String)
    (qe : Option (List ℝ)) (p : String) (size : ℕ) (content : String)
    (hstat : env.fs.stat (filepathJoin tp p) = some size)
    (hsize : ¬ size > 1024 * 1024 * 2)
    (hread : readFileContent env.fs (filepathJoin tp p) 800 = .ok content)
    (hpos : 0 < hybridCombined env tp kw qe p content) :
    hybridScoreOf env tp kw qe p = some ⟨p, hybridCombined env tp kw qe p content⟩ := by
  simp only [hybridScoreOf, hstat, hread, if_neg hsize]
  rw [if_pos hpos]

/-- C3 (amended): every file retained by the hybrid scoring loop has positive
score equal to `0.7*embeddingScore + 0.2*(scoreFile/10) + 0.1*pathRelevance`,
where `pathRelevance` is the keyword-driven path scorer
`getPathRelevanceScore(path, keywords)` (not the query-driven variant), and a
readable, size-admissible candidate is retained exactly when this combined
score is positive. -/
theorem hybridScore_amended :
    ∀ (env : EmbeddingEnv) (opts : EmbeddingOptions),
      (∀ f ∈ hybridScored env opts, 0 < f.Score
        ∧ ∃ content,
            readFileContent env.fs (filepathJoin opts.TargetPath f.Path) 800 = .ok content
            ∧ f.Score
              = hybridEmbeddingScore env (hybridQueryEmbedding env opts) content * 0.7
                + scoreFileValue env.fs (filepathJoin opts.TargetPath f.Path)
                    (extractKeywords opts.Query) / 10 * 0.2
                + getPathRelevanceScore f.Path (extractKeywords opts.Query) * 0.1)
      ∧ (∀ p ∈ opts.CandidateFiles, ∀ (size : ℕ) (content : String),
          env.fs.stat (filepathJoin opts.TargetPath p) = some size →
          ¬ size > 1024 * 1024 * 2 →
          readFileContent env.fs (filepathJoin opts.TargetPath p) 800 = .ok content →
          0 < hybridCombined env opts.TargetPath (extractKeywords opts.Query)
                (hybridQueryEmbedding env opts) p content →
          (⟨p, hybridCombined env opts.TargetPath (extractKeywords opts.Query)
                (hybridQueryEmbedding env opts) p content⟩ : FileInfo)
            ∈ hybridScored env opts) := by
  intro env opts
  constructor
  · intro f hf
    obtain ⟨a, _, ha⟩ := List.mem_filterMap.mp hf
    obtain ⟨hpath, hpos, content, hread, hsc⟩ :=
      hybridScoreOf_some env opts.TargetPath (extractKeywords opts.Query)
        (hybridQueryEmbedding env opts) a f ha
    subst hpath
    exact ⟨hpos, content, hread, by rw [hsc]; rfl⟩
  · intro p hp size content hstat hsize hread hpos
    exact List.mem_filterMap.mpr
      ⟨p, hp, hybridScoreOf_mem env opts.TargetPath (extractKeywords opts.Query)
        (hybridQueryEmbedding env opts) p size content hstat hsize hread hpos⟩

theorem hybridQueryEmbedding_none (env : EmbeddingEnv) (opts : EmbeddingOptions)
    (h : (∃ e, NewEmbeddingProvider opts = .error e)
       ∨ (∃ e, env.gen opts.Query = .error e)) :
    hybridQueryEmbedding env opts = none := by
  rcases h with ⟨e, he⟩ | ⟨e, he⟩
  · simp [hybridQueryEmbedding, hybridProvider, he]
  · simp only [hybridQueryEmbedding, hybridProvider]
    cases NewEmbeddingProvider opts with
    | error _ => rfl
    | ok _ => simp [he]

/-- C1: when embedding-client construction fails (e.g. an unavailable or
unimplemented backend) or the query embedding fails, the hybrid strategy
still returns (no error) a descending ranked list in which every retained
file's score is `0.2*(scoreFile/10-normalised keyword score) + 0.1*path
relevance` — the embedding component contributes 0. -/
theorem hybridDegrade_claim (env : EmbeddingEnv) (opts : EmbeddingOptions)
    (h : (∃ e, NewEmbeddingProvider (applyEmbeddingDefaults opts) = .error e)
       ∨ (∃ e, env.gen opts.Query = .error e)) :
    ∃ l, IdentifyRelevantFilesWithHybridApproach env opts = .ok l
      ∧ DescendingByScore l
      ∧ ∀ f ∈ l, f.Score
          = scoreFileValue env.fs (filepathJoin opts.TargetPath f.Path)
              (extractKeywords opts.Query) / 10 * 0.2
            + getPathRelevanceScore f.Path (extractKeywords opts.Query) * 0.1 := by
  obtain ⟨hq, htp, _, _⟩ := applyEmbeddingDefaults_fields opts
  have hqe : hybridQueryEmbedding env (applyEmbeddingDefaults opts) = none := by
    refine hybridQueryEmbedding_none env _ ?_
    rcases h with h1 | ⟨e, he⟩
    · exact Or.inl h1
    · exact Or.inr ⟨e, by rw [hq, he]⟩
  refine ⟨_, rfl, ?_, ?_⟩
  · exact truncateTo_sorted _ _ (sortSlice_sorted _)
  · intro f hf
    have hf1 : f ∈ sortSlice (hybridScored env (applyEmbeddingDefaults opts)) :=
      (truncateTo_sublist _ _).mem hf
    have hf2 : f ∈ hybridScored env (applyEmbeddingDefaults opts) :=
      (sortSlice_perm _).mem_iff.mp hf1
    obtain ⟨hpos, content, hread, hsc⟩ := (hybridScore_amended env _).1 f hf2
    rw [hqe] at hsc
    rw [hsc, hq, htp]
    show hybridEmbeddingScore env none content * 0.7 + _ + _ = _
    simp only [hybridEmbeddingScore]
    ring

/-- C6: whenever one of the three ranking entry points returns a list, it is
sorted in descending score order and its length is exactly the minimum of the
(defaulted) `MaxFilesToCheck` bound and the number of qualifying files (the
retained, positively scored candidates) — no padding, never more than the
bound. -/
theorem ranking_sorted_claim :
    ∀ (fs : GoFS) (opts : Options) (env : EmbeddingEnv) (eopts : EmbeddingOptions),
      (∀ l, IdentifyRelevantFiles fs opts = .ok l →
          DescendingByScore l
          ∧ l.length = min (applyMax opts.MaxFilesToCheck).toNat
              (kwScored fs opts.TargetPath (extractKeywords opts.Query)
                opts.CandidateFiles).length)
      ∧ (∀ l qe, IdentifyRelevantFilesWithEmbeddings env eopts = .ok l →
          env.gen eopts.Query = .ok qe →
          DescendingByScore l
          ∧ l.length = min (applyMax eopts.MaxFilesToCheck).toNat
              (embScored env eopts.TargetPath qe eopts.CandidateFiles).length)
      ∧ (∃ l, IdentifyRelevantFilesWithHybridApproach env eopts = .ok l
          ∧ DescendingByScore l
          ∧ l.length = min (applyMax eopts.MaxFilesToCheck).toNat
              (hybridScored env (applyEmbeddingDefaults eopts)).length) := by
  intro fs opts env eopts
  obtain ⟨hq, htp, hcf, hmx⟩ := applyEmbeddingDefaults_fields eopts
  refine ⟨?_, ?_, ?_⟩
  · intro l hl
    by_cases hk : extractKeywords opts.Query = []
    · simp only [IdentifyRelevantFiles, if_pos hk] at hl
      exact Except.noConfusion hl
    · simp only [IdentifyRelevantFiles, if_neg hk] at hl
      cases hl
      refine ⟨truncateTo_sorted _ _ (sortFilesByScore_sorted _), ?_⟩
      rw [truncateTo_length, (sortFilesByScore_perm _).length_eq]
  · intro l qe hl hqe
    simp only [IdentifyRelevantFilesWithEmbeddings] at hl
    cases hprov : NewEmbeddingProvider (applyEmbeddingDefaults eopts) with
    | error e => rw [hprov] at hl; exact Except.noConfusion hl
    | ok a =>
      rw [hprov] at hl
      rw [hq] at hl
      rw [hqe] at hl
      simp only [] at hl
      cases hl
      refine ⟨truncateTo_sorted _ _ (sortSlice_sorted _), ?_⟩
      rw [truncateTo_length, (sortSlice_perm _).length_eq, htp, hcf, hmx]
  · refine ⟨_, rfl, truncateTo_sorted _ _ (sortSlice_sorted _), ?_⟩
    rw [truncateTo_length, (sortSlice_perm _).length_eq, hmx]

theorem identEmpty (fs : GoFS) (q tp : String) (m : ℤ)
    (h : extractKeywords q ≠ []) :
    IdentifyRelevantFiles fs ⟨q, tp, [], m⟩ = .ok [] := by
  simp [IdentifyRelevantFiles, if_neg h, kwScored, sortFilesByScore,
    sortFilesByScoreAux, truncateTo]

theorem keywordsWalker : extractKeywords "walker" ≠ [] := by decide

theorem ranking_sorted_claim_witness :
    DescendingByScore ([] : List FileInfo)
    ∧ ([] : List FileInfo).length = min (applyMax optsKW.MaxFilesToCheck).toNat
        (kwScored fsW optsKW.TargetPath (extractKeywords optsKW.Query)
          optsKW.CandidateFiles).length :=
  (ranking_sorted_claim fsW optsKW envW optsEW).1 []
    (identEmpty fsW "walker" "root" 0 keywordsWalker)

theorem paths_le_of_scored (m : ℤ) (scored sorted : List FileInfo)
    (cands : List String) (hperm : List.Perm sorted scored)
    (hsub : List.Sublist (scored.map FileInfo.Path) cands) :
    ((truncateTo m sorted).map FileInfo.Path : Multiset String) ≤ (cands : Multiset String) := by
  rw [Multiset.coe_le]
  have s1 : List.Sublist ((truncateTo m sorted).map FileInfo.Path)
      (sorted.map FileInfo.Path) := (truncateTo_sublist m sorted).map FileInfo.Path
  have s2 : List.Perm (sorted.map FileInfo.Path) (scored.map FileInfo.Path) :=
    hperm.map FileInfo.Path
  exact (s1.subperm.trans s2.subperm).trans hsub.subperm

theorem embScoreOf_path (env : EmbeddingEnv) (tp : String) (qe : List ℝ)
    (a : String) (fi : FileInfo) (h : embScoreOf env tp qe a = some fi) :
    fi.Path = a := by
  cases hstat : env.fs.stat (filepathJoin tp a) with
  | none => simp [embScoreOf, hstat] at h
  | some size =>
    simp only [embScoreOf, hstat] at h
    split_ifs at h with hsize
    cases hread : readFileContent env.fs (filepathJoin tp a) 500 with
    | error e => rw [hread] at h; simp at h
    | ok content =>
      rw [hread] at h
      simp only [] at h
      cases hgen : env.gen content with
      | error e => rw [hgen] at h; simp at h
      | ok fe =>
        rw [hgen] at h
        simp only [] at h
        split_ifs at h
        cases h
        rfl

/-- C10: each ranking entry point returns only paths taken verbatim from the
supplied candidate list (never joined with the target path), each returned
entry consuming a distinct occurrence in that list — as multisets, the
returned paths are contained in the candidates. -/
theorem ranking_paths_claim :
    ∀ (fs : GoFS) (opts : Options) (env : EmbeddingEnv) (eopts : EmbeddingOptions),
      (∀ l, IdentifyRelevantFiles fs opts = .ok l →
        ((l.map FileInfo.Path : List String) : Multiset String)
          ≤ (opts.CandidateFiles : Multiset String))
      ∧ (∀ l, IdentifyRelevantFilesWithEmbeddings env eopts = .ok l →
        ((l.map FileInfo.Path : List String) : Multiset String)
          ≤ (eopts.CandidateFiles : Multiset String))
      ∧ (∀ l, IdentifyRelevantFilesWithHybridApproach env eopts = .ok l →
        ((l.map FileInfo.Path : List String) : Multiset String)
          ≤ (eopts.CandidateFiles : Multiset String)) := by
  intro fs opts env eopts
  obtain ⟨hq, htp, hcf, hmx⟩ := applyEmbeddingDefaults_fields eopts
  refine ⟨?_, ?_, ?_⟩
  · intro l hl
    by_cases hk : extractKeywords opts.Query = []
    · simp only [IdentifyRelevantFiles, if_pos hk] at hl
      exact Except.noConfusion hl
    · simp only [IdentifyRelevantFiles, if_neg hk] at hl
      cases hl
      refine paths_le_of_scored _ _ _ _ (sortFilesByScore_perm _) ?_
      refine filterMap_path_sublist _ ?_ _
      intro a fi ha
      exact (kwScoreOf_some fs _ _ a fi ha).1
  · intro l hl
    simp only [IdentifyRelevantFilesWithEmbeddings] at hl
    cases hprov : NewEmbeddingProvider (applyEmbeddingDefaults eopts) with
    | error e => rw [hprov] at hl; exact Except.noConfusion hl
    | ok a =>
      rw [hprov] at hl
      cases hqe : env.gen (applyEmbeddingDefaults eopts).Query with
      | error e => rw [hqe] at hl; exact Except.noConfusion hl
      | ok qe =>
        rw [hqe] at hl
        simp only [] at hl
        cases hl
        rw [← hcf]
        refine paths_le_of_scored _ _ _ _ (sortSlice_perm _) ?_
        refine filterMap_path_sublist _ ?_ _
        intro a fi ha
        exact embScoreOf_path env _ qe a fi ha
  · intro l hl
    simp only [IdentifyRelevantFilesWithHybridApproach] at hl
    cases hl
    rw [← hcf]
    refine paths_le_of_scored _ _ _ _ (sortSlice_perm _) ?_
    refine filterMap_path_sublist _ ?_ _
    intro a fi ha
    exact (hybridScoreOf_some env _ _ _ a fi ha).1

theorem ranking_paths_claim_witness :
    ((([] : List FileInfo).map FileInfo.Path : List String) : Multiset String)
      ≤ (optsKW.CandidateFiles : Multiset String) :=
  (ranking_paths_claim fsW optsKW envW optsEW).1 []
    (identEmpty fsW "walker" "root" 0 keywordsWalker)

theorem provdeC3 : NewEmbeddingProvider (applyEmbeddingDefaults optsC3)
    = .error "OpenAI embedding provider not yet implemented" := rfl

theorem hybridDegrade_claim_witness :
    ∃ l, IdentifyRelevantFilesWithHybridApproach envC3 optsC3 = .ok l
      ∧ DescendingByScore l
      ∧ ∀ f ∈ l, f.Score
          = scoreFileValue envC3.fs (filepathJoin optsC3.TargetPath f.Path)
              (extractKeywords optsC3.Query) / 10 * 0.2
            + getPathRelevanceScore f.Path (extractKeywords optsC3.Query) * 0.1 :=
  hybridDegrade_claim envC3 optsC3 (Or.inl ⟨_, provdeC3⟩)

theorem kwC3 : extractKeywords optsC3.Query = ["walker"] := by decide

theorem qeC3 : hybridQueryEmbedding envC3 optsC3 = none := rfl

theorem scoreFileValueC3 :
    scoreFileValue envC3.fs (filepathJoin "root" "walker.go") ["walker"] = 0 := by
  have h0 : lineHits ["walker"] "zzz" = 0 := by decide
  simp only [scoreFileValue, scoreFileRes,
    show envC3.fs.lines (filepathJoin "root" "walker.go") = some ["zzz"] from rfl]
  simp [scoreLines, h0]

theorem pathKwC3 : getPathRelevanceScore "walker.go" ["walker"] = 1 := by
  have hc1 : goContains (goToLower "walker.go") "walker" = true := by decide
  have hc2 : goContains (goToLower (filepathBase "walker.go")) "walker" = true := by decide
  simp [getPathRelevanceScore, hc1, hc2]
  norm_num

theorem hybridCombinedC3 :
    hybridCombined envC3 "root" ["walker"] none "walker.go" "zzz\n" = 1 / 10 := by
  simp only [hybridCombined, hybridEmbeddingScore, scoreFileValueC3, pathKwC3]
  norm_num

theorem hybridScoredC3 :
    hybridScored envC3 optsC3
      = [⟨"walker.go", hybridCombined envC3 "root" ["walker"] none "walker.go" "zzz\n"⟩] := by
  have hpos : 0 < hybridCombined envC3 "root" ["walker"] none "walker.go" "zzz\n" := by
    rw [hybridCombinedC3]; norm_num
  have hsOf := hybridScoreOf_mem envC3 "root" ["walker"] none "walker.go" 10 "zzz\n"
    rfl (by norm_num) rfl hpos
  simp only [hybridScored, kwC3, qeC3,
    show optsC3.CandidateFiles = ["walker.go"] from rfl,
    show optsC3.TargetPath = "root" from rfl]
  rw [List.filterMap_cons, hsOf, List.filterMap_nil]

theorem pathQueryC3 : getPathRelevanceScoreQuery "walker.go" "walker" = 3 / 10 := by
  have hany : ((splitOnChar (Char.ofNat 47) (goToLower "walker.go")).any
      fun part => goContains (goToLower "walker") part
        || goContains part (goToLower "walker")) = true := by decide
  have h01 : goHasSuffix (goToLower "walker.go") ".go" = true := by decide
  have h02 : goContains (goToLower "walker") "go" = false := by decide
  have h03 : goContains (goToLower "walker") "golang" = false := by decide
  have h04 : goHasSuffix (goToLower "walker.go") ".java" = false := by decide
  have h05 : goHasSuffix (goToLower "walker.go") ".py" = false := by decide
  have h06 : goHasSuffix (goToLower "walker.go") ".js" = false := by decide
  have h07 : goHasSuffix (goToLower "walker.go") ".ts" = false := by decide
  have h08 : goHasSuffix (goToLower "walker.go") ".cs" = false := by decide
  have h09 : goHasSuffix (goToLower "walker.go") ".php" = false := by decide
  have h10 : goContains (goToLower "walker.go") "main." = false := by decide
  have h11 : goContains (goToLower "walker.go") "index." = false := by decide
  have h12 : goContains (goToLower "walker.go") "controller" = false := by decide
  have h13 : goContains (goToLower "walker.go") "service" = false := by decide
  have h14 : goContains (goToLower "walker.go") "api" = false := by decide
  have h15 : goContains (goToLower "walker.go") "handler" = false := by decide
  simp only [getPathRelevanceScoreQuery, hany, h01, h02, h03, h04, h05, h06, h07,
    h08, h09, h10, h11, h12, h13, h14, h15, Bool.false_eq_true, eq_self_iff_true,
    if_true, if_false, false_and, and_false, false_or, or_false, and_true,
    true_and, or_true, true_or, or_self]
  rw [if_neg (by norm_num)]
  norm_num

/-- C3 counterexample: in the degraded hybrid run over `envC3`/`optsC3` the
file `walker.go` is retained with score `1/10` (keyword-driven path scorer
gives 1.0), while the claim's formula with the query-driven path scorer
(which gives 0.3 here) would yield `3/100` — the two disagree. -/
theorem hybridScore_counterexample :
    IdentifyRelevantFilesWithHybridApproach envC3 optsC3
      = .ok [⟨"walker.go", 1 / 10⟩]
    ∧ getPathRelevanceScoreQuery "walker.go" "walker" = 3 / 10
    ∧ (1 / 10 : ℝ)
        ≠ 0.7 * 0
          + 0.2 * (scoreFileValue envC3.fs (filepathJoin "root" "walker.go")
                     (extractKeywords "walker") / 10)
          + 0.1 * getPathRelevanceScoreQuery "walker.go" "walker" := by
  refine ⟨?_, pathQueryC3, ?_⟩
  · simp only [IdentifyRelevantFilesWithHybridApproach,
      show applyEmbeddingDefaults optsC3 = optsC3 from rfl, hybridScoredC3,
      hybridCombinedC3]
    rfl
  · rw [show extractKeywords "walker" = ["walker"] from by decide,
      scoreFileValueC3, pathQueryC3]
    norm_num

theorem hybridScore_amended_witness :
    (⟨"walker.go", hybridCombined envC3 optsC3.TargetPath (extractKeywords optsC3.Query)
        (hybridQueryEmbedding envC3 optsC3) "walker.go" "zzz\n"⟩ : FileInfo)
      ∈ hybridScored envC3 optsC3 :=
  (hybridScore_amended envC3 optsC3).2 "walker.go" (by simp [optsC3]) 10 "zzz\n" rfl
    (by norm_num)
    rfl
    (by rw [kwC3, qeC3, show optsC3.TargetPath = "root" from rfl, hybridCombinedC3]
        norm_num)

theorem geminiLoop_attempts_bound (pid : ℕ) (oracle : ℕ → GeminiOutcome) :
    ∀ (fuel attempt : ℕ) (lastErr : String),
      attempt ≤ (geminiLoop pid oracle fuel attempt lastErr).attempts
      ∧ (geminiLoop pid oracle fuel attempt lastErr).attempts ≤ attempt + fuel := by
  intro fuel
  induction fuel with
  | zero => intro attempt lastErr; simp [geminiLoop]
  | succ fuel ih =>
    intro attempt lastErr
    cases ho : oracle attempt with
    | clientErr m =>
      simp only [geminiLoop, ho]
      have := ih (attempt + 1) ("gemini: error creating client for embedding: " ++ m)
      first
      | (split_ifs <;> dsimp only <;> omega)
      | (dsimp only; omega)
      | omega
    | embedErr m =>
      simp only [geminiLoop, ho]
      have := ih (attempt + 1) m
      first
      | (split_ifs <;> dsimp only <;> omega)
      | (dsimp only; omega)
      | omega
    | nilResult =>
      simp only [geminiLoop, ho]
      have := ih (attempt + 1) "gemini: received nil embedding"
      first
      | (split_ifs <;> dsimp only <;> omega)
      | (dsimp only; omega)
      | omega
    | okVec v =>
      simp only [geminiLoop, ho]
      first
      | (split_ifs <;> dsimp only <;> omega)
      | (dsimp only; omega)
      | omega

theorem geminiLoop_delays_eq (pid : ℕ) (oracle : ℕ → GeminiOutcome) :
    ∀ (fuel attempt : ℕ) (lastErr : String),
      (geminiLoop pid oracle fuel attempt lastErr).delays
        = (List.range' (max attempt 1)
            ((geminiLoop pid oracle fuel attempt lastErr).attempts - max attempt 1)).map
            (geminiDelay pid) := by
  intro fuel
  induction fuel with
  | zero =>
    intro attempt lastErr
    simp [geminiLoop]
  | succ fuel ih =>
    intro attempt lastErr
    have hstep : ∀ s : String,
        ((if attempt > 0 then [geminiDelay pid attempt] else [])
            ++ (geminiLoop pid oracle fuel (attempt + 1) s).delays)
          = (List.range' (max attempt 1)
              ((geminiLoop pid oracle fuel (attempt + 1) s).attempts - max attempt 1)).map
              (geminiDelay pid) := by
      intro s
      have hge : attempt + 1 ≤ (geminiLoop pid oracle fuel (attempt + 1) s).attempts :=
        (geminiLoop_attempts_bound pid oracle fuel (attempt + 1) s).1
      rw [ih (attempt + 1) s]
      by_cases h0 : attempt = 0
      · subst h0
        simp
      · have h1 : max attempt 1 = attempt := by omega
        have h2 : max (attempt + 1) 1 = attempt + 1 := by omega
        rw [if_pos (by omega : attempt > 0), h1, h2]
        have h3 : (geminiLoop pid oracle fuel (attempt + 1) s).attempts - attempt
            = ((geminiLoop pid oracle fuel (attempt + 1) s).attempts - (attempt + 1)) + 1 := by
          omega
        rw [h3, List.range'_succ, List.map_cons, List.singleton_append]
    have hstop : ∀ r : Except String (List ℝ),
        ((⟨r, attempt + 1, if attempt > 0 then [geminiDelay pid attempt] else []⟩ :
            GeminiResult).delays)
          = (List.range' (max attempt 1)
              ((⟨r, attempt + 1, if attempt > 0 then [geminiDelay pid attempt] else []⟩ :
                GeminiResult).attempts - max attempt 1)).map (geminiDelay pid) := by
      intro r
      dsimp only
      by_cases h0 : attempt = 0
      · subst h0
        simp
      · have h1 : max attempt 1 = attempt := by omega
        rw [if_pos (by omega : attempt > 0), h1,
          (by omega : attempt + 1 - attempt = 1)]
        simp [List.range']
    cases ho : oracle attempt with
    | clientErr m =>
      simp only [geminiLoop, ho]
      by_cases hr : isRateLimitClientMsg m = true
      · rw [if_pos hr]; exact hstep _
      · rw [if_neg hr]; exact hstop _
    | embedErr m =>
      simp only [geminiLoop, ho]
      by_cases hr : isRateLimitEmbedMsg m = true
      · rw [if_pos hr]; exact hstep _
      · rw [if_neg hr]; exact hstop _
    | nilResult =>
      simp only [geminiLoop, ho]
      exact hstep _
    | okVec v =>
      simp only [geminiLoop, ho]
      exact hstop (.ok v)

theorem geminiLoop_retriable_step (pid : ℕ) (oracle : ℕ → GeminiOutcome)
    (fuel attempt : ℕ) (lastErr : String)
    (h : geminiRetriable (oracle attempt) = true) :
    (geminiLoop pid oracle (fuel + 1) attempt lastErr).result
      = (geminiLoop pid oracle fuel (attempt + 1) (geminiLastErr (oracle attempt))).result
    ∧ (geminiLoop pid oracle (fuel + 1) attempt lastErr).attempts
      = (geminiLoop pid oracle fuel (attempt + 1) (geminiLastErr (oracle attempt))).attempts := by
  cases ho : oracle attempt with
  | clientErr m =>
    rw [ho] at h
    simp only [geminiRetriable] at h
    simp only [geminiLoop, ho, if_pos h, geminiLastErr]
    exact ⟨trivial, trivial⟩
  | embedErr m =>
    rw [ho] at h
    simp only [geminiRetriable] at h
    simp only [geminiLoop, ho, if_pos h, geminiLastErr]
    exact ⟨trivial, trivial⟩
  | nilResult =>
    simp only [geminiLoop, ho, geminiLastErr]
    exact ⟨trivial, trivial⟩
  | okVec v =>
    rw [ho] at h
    simp only [geminiRetriable] at h
    exact Bool.noConfusion h

theorem geminiLoopSkipRetriable (pid : ℕ) (oracle : ℕ → GeminiOutcome) :
    ∀ k, k ≤ 5 → (∀ j, j < k → geminiRetriable (oracle j) = true) →
      (geminiLoop pid oracle 5 0 "").result
        = (geminiLoop pid oracle (5 - k) k (geminiLastErrAt oracle k)).result
      ∧ (geminiLoop pid oracle 5 0 "").attempts
        = (geminiLoop pid oracle (5 - k) k (geminiLastErrAt oracle k)).attempts := by
  intro k
  induction k with
  | zero => intro _ _; exact ⟨rfl, rfl⟩
  | succ k ih =>
    intro hk hret
    have hk' : k ≤ 5 := by omega
    have ihk := ih hk' (fun j hj => hret j (by omega))
    have hfuel : 5 - k = (5 - (k + 1)) + 1 := by omega
    have hstep := geminiLoop_retriable_step pid oracle (5 - (k + 1)) k
      (geminiLastErrAt oracle k) (hret k (by omega))
    rw [hfuel] at ihk
    have hle : geminiLastErrAt oracle (k + 1) = geminiLastErr (oracle k) := rfl
    rw [hle]
    exact ⟨ihk.1.trans hstep.1, ihk.2.trans hstep.2⟩

theorem geminiLoop_stop (pid : ℕ) (oracle : ℕ → GeminiOutcome)
    (fuel attempt : ℕ) (lastErr : String) :
    (∀ m, oracle attempt = .embedErr m → isRateLimitEmbedMsg m = false →
      geminiLoop pid oracle (fuel + 1) attempt lastErr
        = ⟨.error ("gemini: error getting embedding: " ++ m), attempt + 1,
           if attempt > 0 then [geminiDelay pid attempt] else []⟩)
    ∧ (∀ m, oracle attempt = .clientErr m → isRateLimitClientMsg m = false →
      geminiLoop pid oracle (fuel + 1) attempt lastErr
        = ⟨.error ("gemini: error creating client for embedding: " ++ m), attempt + 1,
           if attempt > 0 then [geminiDelay pid attempt] else []⟩)
    ∧ (∀ v, oracle attempt = .okVec v →
      geminiLoop pid oracle (fuel + 1) attempt lastErr
        = ⟨.ok v, attempt + 1, if attempt > 0 then [geminiDelay pid attempt] else []⟩) := by
  refine ⟨?_, ?_, ?_⟩
  · intro m ho hm
    simp only [geminiLoop, ho, hm]
    rfl
  · intro m ho hm
    simp only [geminiLoop, ho, hm]
    rfl
  · intro v ho
    simp only [geminiLoop, ho]

/-- C8 (amended): the Gemini embedding call makes at most 5 attempts; the
backoff delays (at most four of them: there is no fifth, 16-second delay)
double from a 1-second base, each scaled by a fixed jitter factor inside
[0.8, 1.2); after any run of retriable outcomes (rate-limit-class errors and
nil-embedding responses), a non-rate-limit error is returned immediately,
a success returns its vector, and exhausting all 5 attempts returns the
exhausted-retries error wrapping the last underlying error. -/
theorem geminiRetry_amended :
    ∀ (apiKey : String) (pid : ℕ) (oracle : ℕ → GeminiOutcome),
      (GenerateEmbeddingGemini apiKey pid oracle).attempts ≤ 5
      ∧ (GenerateEmbeddingGemini apiKey pid oracle).delays.length ≤ 4
      ∧ (∀ i, i < (GenerateEmbeddingGemini apiKey pid oracle).delays.length →
          (GenerateEmbeddingGemini apiKey pid oracle).delays.getD i 0
            = 1000 * 2 ^ i * backoffFactor pid)
      ∧ ((0.8 : ℚ) ≤ backoffFactor pid ∧ backoffFactor pid < 1.2)
      ∧ (apiKey ≠ "" → ∀ k, k < 5 → (∀ j, j < k → geminiRetriable (oracle j) = true) →
          (∀ m, oracle k = .embedErr m → isRateLimitEmbedMsg m = false →
            (GenerateEmbeddingGemini apiKey pid oracle).result
              = .error ("gemini: error getting embedding: " ++ m)
            ∧ (GenerateEmbeddingGemini apiKey pid oracle).attempts = k + 1)
          ∧ (∀ m, oracle k = .clientErr m → isRateLimitClientMsg m = false →
            (GenerateEmbeddingGemini apiKey pid oracle).result
              = .error ("gemini: error creating client for embedding: " ++ m)
            ∧ (GenerateEmbeddingGemini apiKey pid oracle).attempts = k + 1)
          ∧ (∀ v, oracle k = .okVec v →
            (GenerateEmbeddingGemini apiKey pid oracle).result = .ok v
            ∧ (GenerateEmbeddingGemini apiKey pid oracle).attempts = k + 1))
      ∧ (apiKey ≠ "" → (∀ j, j < 5 → geminiRetriable (oracle j) = true) →
          (GenerateEmbeddingGemini apiKey pid oracle).result
            = .error ("gemini: exhausted retries (5 attempts): "
                ++ geminiLastErr (oracle 4)))
      ∧ (apiKey = "" →
          GenerateEmbeddingGemini apiKey pid oracle
            = ⟨.error "gemini: API key is required", 0, []⟩) := by
  intro apiKey pid oracle
  have hfac : (0.8 : ℚ) ≤ backoffFactor pid ∧ backoffFactor pid < 1.2 := by
    have h1 : ((pid % 100 : ℕ) : ℚ) ≤ 99 := by
      have : pid % 100 < 100 := Nat.mod_lt _ (by norm_num)
      exact_mod_cast Nat.le_of_lt_succ this
    have h2 : (0 : ℚ) ≤ ((pid % 100 : ℕ) : ℚ) := Nat.cast_nonneg _
    constructor
    · simp only [backoffFactor]
      nlinarith
    · simp only [backoffFactor]
      nlinarith
  by_cases hkey : apiKey = ""
  · refine ⟨?_, ?_, ?_, hfac, ?_, ?_, ?_⟩ <;>
      simp [GenerateEmbeddingGemini, hkey]
  · have hrun : GenerateEmbeddingGemini apiKey pid oracle
        = geminiLoop pid oracle 5 0 "" := by
      simp [GenerateEmbeddingGemini, hkey]
    have hbound := geminiLoop_attempts_bound pid oracle 5 0 ""
    have hdel := geminiLoop_delays_eq pid oracle 5 0 ""
    have hattempts : (GenerateEmbeddingGemini apiKey pid oracle).attempts ≤ 5 := by
      rw [hrun]; omega
    have hdelays : (GenerateEmbeddingGemini apiKey pid oracle).delays
        = (List.range' 1 ((geminiLoop pid oracle 5 0 "").attempts - 1)).map
            (geminiDelay pid) := by
      rw [hrun, hdel]
      norm_num
    refine ⟨hattempts, ?_, ?_, hfac, ?_, ?_, fun h => absurd h hkey⟩
    · rw [hdelays]
      simp only [List.length_map, List.length_range']
      omega
    · intro i hi
      rw [hdelays] at hi ⊢
      simp only [List.length_map, List.length_range'] at hi
      rw [List.getD_eq_getElem _ _ (by simpa using hi)]
      simp only [List.getElem_map, List.getElem_range']
      simp only [geminiDelay]
      rw [show (1 + 1 * i - 1 : ℕ) = i from by omega]
    · intro _ k hk hret
      have hpre := geminiLoopSkipRetriable pid oracle k (by omega) hret
      have hfuel : 5 - k = (5 - (k + 1)) + 1 := by omega
      rw [hfuel] at hpre
      have hstop := geminiLoop_stop pid oracle (5 - (k + 1)) k (geminiLastErrAt oracle k)
      refine ⟨?_, ?_, ?_⟩
      · intro m ho hm
        have := hstop.1 m ho hm
        rw [hrun, hpre.1, hpre.2, this]
        exact ⟨rfl, rfl⟩
      · intro m ho hm
        have := hstop.2.1 m ho hm
        rw [hrun, hpre.1, hpre.2, this]
        exact ⟨rfl, rfl⟩
      · intro v ho
        have := hstop.2.2 v ho
        rw [hrun, hpre.1, hpre.2, this]
        exact ⟨rfl, rfl⟩
    · intro _ hret
      have hpre := geminiLoopSkipRetriable pid oracle 5 (by omega) hret
      rw [hrun, hpre.1]
      rfl

theorem geminiRetry_amended_witness :
    (GenerateEmbeddingGemini "k" 0 oracleRetryOnce).result = .ok []
    ∧ (GenerateEmbeddingGemini "k" 0 oracleRetryOnce).attempts = 1 + 1 :=
  ((geminiRetry_amended "k" 0 oracleRetryOnce).2.2.2.2.1 (by decide) 1 (by omega)
    (by intro j hj; interval_cases j; decide)).2.2 [] rfl

/-- C8 counterexample: with a maximal run of rate-limit failures (and the
jitter factor 0.8 from pid 0), exactly four backoff delays occur — 800 ms,
1600 ms, 3200 ms and 6400 ms — and none lies in the 16-second ± 20 % band
[12800 ms, 19200 ms], so the claimed fifth 16-second delay never happens. -/
theorem geminiRetry_counterexample :
    (GenerateEmbeddingGemini "k" 0 oracle429).attempts = 5
    ∧ (GenerateEmbeddingGemini "k" 0 oracle429).delays = [800, 1600, 3200, 6400]
    ∧ ∀ d ∈ (GenerateEmbeddingGemini "k" 0 oracle429).delays,
        ¬ ((12800 : ℚ) ≤ d ∧ d ≤ 19200) := by
  have h1 : geminiDelay 0 1 = 800 := by norm_num [geminiDelay, backoffFactor]
  have h2 : geminiDelay 0 2 = 1600 := by norm_num [geminiDelay, backoffFactor]
  have h3 : geminiDelay 0 3 = 3200 := by norm_num [geminiDelay, backoffFactor]
  have h4 : geminiDelay 0 4 = 6400 := by norm_num [geminiDelay, backoffFactor]
  have hrun : GenerateEmbeddingGemini "k" 0 oracle429
      = ⟨.error ("gemini: exhausted retries (5 attempts): " ++ "429"), 5,
         [geminiDelay 0 1, geminiDelay 0 2, geminiDelay 0 3, geminiDelay 0 4]⟩ := rfl
  have hd : (GenerateEmbeddingGemini "k" 0 oracle429).delays = [800, 1600, 3200, 6400] := by
    rw [hrun]
    simp [h1, h2, h3, h4]
  refine ⟨by rw [hrun], hd, ?_⟩
  intro d hdm
  rw [hd] at hdm
  fin_cases hdm <;> norm_num
